import Mathlib

/-!
Shallow embedding of the contact-directory program (`web.exercise2.py`).

Python strings are modelled as Lean `String`; `str.isdigit` and the `\d`
character class of `strptime` are modelled on the ASCII decimal digits,
which is the fragment the specification speaks about.  Machine dates
(`datetime`) are modelled as explicit year/month/day triples together with
a proleptic-Gregorian ordinal (`date.toordinal`); fallible Python code
(constructors that `raise ValueError`) returns `Except String`.
-/

/-- Error message of `Phone.__init__`. -/
def invalidPhoneMsg : String := "Phone number must be a string of 10 digits"

/-- Error message of `Birthday.__init__`. -/
def invalidDateMsg : String := "Invalid date format. Use DD.MM.YYYY"

/-- Models Python `value.isdigit()` on the ASCII fragment: non-empty and
every character a decimal digit. -/
def pyIsdigit (cs : List Char) : Bool := !cs.isEmpty && cs.all Char.isDigit

/-- Models `Phone.__init__` (line 42-45): the raw string is accepted exactly
when `value.isdigit() and len(value) == 10`; otherwise `ValueError`. -/
def makePhone (value : String) : Except String String :=
  if pyIsdigit value.data && value.length == 10 then .ok value
  else .error invalidPhoneMsg

/-- Models `PhoneManager.add_phone` (line 61-63): validate, then append. -/
def add_phone (phones : List String) (phone : String) : Except String (List String) :=
  match makePhone phone with
  | .error e => .error e
  | .ok _ => .ok (phones ++ [phone])

/-- Replace the first list entry equal to `old` by `new`; `none` when no
entry matches.  Models the `for ... else` loop of `edit_phone`. -/
def replaceFirst : List String → String → String → Option (List String)
  | [], _, _ => none
  | p :: ps, old, new =>
    if p == old then some (new :: ps)
    else (replaceFirst ps old new).map (fun l => p :: l)

/-- Models `PhoneManager.edit_phone` (line 68-75): `Phone(new_phone)` is
constructed first (raising on an invalid phone before anything is touched),
then the first entry equal to `old_phone` is replaced, else `ValueError`. -/
def edit_phone (phones : List String) (old new : String) : Except String (List String) :=
  match makePhone new with
  | .error e => .error e
  | .ok _ =>
    match replaceFirst phones old new with
    | some ps => .ok ps
    | none => .error ("Phone " ++ old ++ " not found")

/-- Gregorian leap-year rule, as used by Python `datetime`. -/
def isLeap (y : Nat) : Bool := y % 4 == 0 && (y % 100 != 0 || y % 400 == 0)

/-- Length of a month; `0` for a month index outside `1..12`. -/
def daysInMonth (y m : Nat) : Nat :=
  match m with
  | 1 => 31 | 2 => if isLeap y then 29 else 28 | 3 => 31 | 4 => 30
  | 5 => 31 | 6 => 30 | 7 => 31 | 8 => 31 | 9 => 30 | 10 => 31
  | 11 => 30 | 12 => 31 | _ => 0

/-- Days in year `y` strictly before month `m`. -/
def daysBeforeMonth (y m : Nat) : Nat :=
  (match m with
   | 1 => 0 | 2 => 31 | 3 => 59 | 4 => 90 | 5 => 120 | 6 => 151
   | 7 => 181 | 8 => 212 | 9 => 243 | 10 => 273 | 11 => 304 | _ => 334)
  + (if isLeap y = true ∧ 3 ≤ m then 1 else 0)

/-- Days strictly before January 1 of year `y` in the proleptic Gregorian
calendar (so `daysBeforeYear 1 = 0`). -/
def daysBeforeYear (y : Nat) : Nat :=
  365 * (y - 1) + (y - 1) / 4 - (y - 1) / 100 + (y - 1) / 400

/-- A calendar date, the date part of a Python `datetime`. -/
structure Date where
  year : Nat
  month : Nat
  day : Nat
deriving DecidableEq

/-- Models `date.toordinal()`: day 1 is January 1 of year 1. -/
def Date.toOrdinal (d : Date) : Nat :=
  daysBeforeYear d.year + daysBeforeMonth d.year d.month + d.day

/-- Models `date.weekday()`: Monday = 0 … Sunday = 6.  January 1 of year 1
(ordinal 1) is a Monday. -/
def Date.weekday (d : Date) : Nat := (d.toOrdinal + 6) % 7

/-- The date is a real calendar date representable by Python `datetime`
apart from the year upper bound. -/
def Date.valid (d : Date) : Prop :=
  1 ≤ d.year ∧ 1 ≤ d.month ∧ d.month ≤ 12 ∧ 1 ≤ d.day ∧
    d.day ≤ daysInMonth d.year d.month

/-- Successor date. -/
def Date.nextDay (d : Date) : Date :=
  if d.day < daysInMonth d.year d.month then ⟨d.year, d.month, d.day + 1⟩
  else if d.month < 12 then ⟨d.year, d.month + 1, 1⟩
  else ⟨d.year + 1, 1, 1⟩

/-- Models `date + timedelta(days=n)` for a non-negative `n`. -/
def Date.addDays (d : Date) : Nat → Date
  | 0 => d
  | n + 1 => (d.addDays n).nextDay

/-- Longest digit prefix of a character list, with the remainder. -/
def spanDigits : List Char → List Char × List Char
  | [] => ([], [])
  | c :: cs =>
    if c.isDigit then
      let p := spanDigits cs
      (c :: p.1, p.2)
    else ([], c :: cs)

/-- Numeric value of a list of decimal digits (most significant first). -/
def digitsVal (cs : List Char) : Nat :=
  cs.foldl (fun a c => 10 * a + (c.toNat - 48)) 0

/-- Models the `%d` directive of the CPython `_strptime` regex,
`3[0-1]|[1-2]\\d|0[1-9]|[1-9]| [1-9]`: one or two digits with value 1..31,
or a space followed by a single digit `1`..`9` (space-padded day).  Returns
the day value and the unconsumed input. -/
def matchDay (cs : List Char) : Option (Nat × List Char) :=
  match cs with
  | ' ' :: c :: rest =>
    if c.isDigit = true ∧ c ≠ '0' then some (c.toNat - 48, rest) else none
  | _ =>
    let p := spanDigits cs
    if 1 ≤ p.1.length ∧ p.1.length ≤ 2 ∧ 1 ≤ digitsVal p.1 ∧ digitsVal p.1 ≤ 31 then
      some (digitsVal p.1, p.2)
    else none

/-- Models the `%m.%Y`-and-end part of the CPython `strptime` pattern:
`%m` is one or two digits with value 1..12, the dot is literal, `%Y` is
exactly four digits, and no input may remain. -/
def matchMonthYear (cs : List Char) : Option (Nat × Nat) :=
  match spanDigits cs with
  | (ms, '.' :: r2) =>
    (match spanDigits r2 with
     | (ys, []) =>
       if 1 ≤ ms.length ∧ ms.length ≤ 2 ∧ 1 ≤ digitsVal ms ∧ digitsVal ms ≤ 12 ∧
          ys.length = 4
       then some (digitsVal ms, digitsVal ys) else none
     | _ => none)
  | _ => none

/-- Models the regular-expression phase of CPython
`datetime.strptime(raw, "%d.%m.%Y")`: the `%d` directive (including its
space-padded single-digit alternative), a literal dot, then `%m`, a
literal dot, and `%Y`. -/
def strptimeDMY (raw : String) : Option (Nat × Nat × Nat) :=
  match matchDay raw.data with
  | none => none
  | some (d, r0) =>
    match r0 with
    | '.' :: r1 =>
      (match matchMonthYear r1 with
       | none => none
       | some (m, y) => some (d, m, y))
    | _ => none

/-- Models `datetime.strptime(raw, "%d.%m.%Y")` in full: the regex phase
followed by the `datetime` constructor, which additionally requires
`MINYEAR <= year <= MAXYEAR` and the day to fit the month.  Returns
`(day, month, year)`. -/
def parseBirthday (raw : String) : Option (Nat × Nat × Nat) :=
  match strptimeDMY raw with
  | none => none
  | some (d, m, y) =>
    if 1 ≤ y ∧ y ≤ 9999 ∧ d ≤ daysInMonth y m then some (d, m, y) else none

/-- Models `Birthday.__init__` (line 49-54): `strptime` must succeed, the
raw string itself is stored; otherwise `ValueError`. -/
def makeBirthday (raw : String) : Except String String :=
  if (parseBirthday raw).isSome then .ok raw else .error invalidDateMsg

/-- A contact record: name, ordered phone list, optional birthday string.
Models `Record` with its `PhoneManager` and `BirthdayManager`. -/
structure Record where
  name : String
  phones : List String
  birthday : Option String
deriving DecidableEq

/-- One element of the list produced by `get_upcoming_birthdays`. -/
structure Entry where
  name : String
  congratulation_date : String
deriving DecidableEq

/-- Two-digit zero-padded decimal, as `strftime` `%d`/`%m`. -/
def pad2 (n : Nat) : String := if n < 10 then "0" ++ toString n else toString n

/-- Four-digit zero-padded decimal, as CPython `strftime` `%Y`. -/
def pad4 (n : Nat) : String :=
  if n < 10 then "000" ++ toString n
  else if n < 100 then "00" ++ toString n
  else if n < 1000 then "0" ++ toString n
  else toString n

/-- Models `d.strftime("%d.%m.%Y")`. -/
def fmtDate (d : Date) : String := pad2 d.day ++ "." ++ pad2 d.month ++ "." ++ pad4 d.year

/-- Models `datetime.replace(year=y)`: the `datetime` constructor re-checks
the year range and that the day fits the month of the new year. -/
def replaceYear (d : Date) (y : Nat) : Except String Date :=
  if 1 ≤ y ∧ y ≤ 9999 then
    if d.day ≤ daysInMonth y d.month then .ok ⟨y, d.month, d.day⟩
    else .error "day is out of range for month"
  else .error "year is out of range"

/-- Lines 116-118 of the calculator: replace the birthday year by
`today.year`, and when the result is strictly before `today` replace it by
`today.year + 1`.  Date comparison is by ordinal, which agrees with
`datetime` comparison on valid dates. -/
def bdayThisYear (b : Date) (today : Date) : Except String Date :=
  match replaceYear b today.year with
  | .error e => .error e
  | .ok x =>
    if x.toOrdinal < today.toOrdinal then replaceYear x (today.year + 1) else .ok x

/-- Lines 121-126: shift a Saturday by two days and a Sunday by one day. -/
def congrDate (d : Date) : Date :=
  if d.weekday = 5 then d.addDays 2
  else if d.weekday = 6 then d.addDays 1
  else d

/-- Body of the `for record in records` loop of
`BirthdayCalculator.get_upcoming_birthdays` for one record: `ok none` when
the record contributes no entry, `ok (some e)` when it contributes `e`,
`error` when the Python code would raise. -/
def upcomingEntry (today : Date) (r : Record) : Except String (Option Entry) :=
  match r.birthday with
  | none => .ok none
  | some bs =>
    match parseBirthday bs with
    | none => .error "time data does not match format"
    | some (d, m, y) =>
      match bdayThisYear ⟨y, m, d⟩ today with
      | .error e => .error e
      | .ok bty =>
        let delta : Int := (bty.toOrdinal : Int) - (today.toOrdinal : Int)
        if 0 ≤ delta ∧ delta ≤ 7 then
          .ok (some ⟨r.name, fmtDate (congrDate bty)⟩)
        else .ok none

/-- Models `BirthdayCalculator.get_upcoming_birthdays(records, today)` with
an explicit date-only `today` (line 109-131).  The first record on which
the Python loop raises aborts the whole computation. -/
def get_upcoming_birthdays : List Record → Date → Except String (List Entry)
  | [], _ => .ok []
  | r :: rs, today =>
    match upcomingEntry today r with
    | .error e => .error e
    | .ok o =>
      match get_upcoming_birthdays rs today with
      | .error e => .error e
      | .ok rest =>
        .ok (match o with
             | some e => e :: rest
             | none => rest)

/-- The entry a record contributes when the calculator does not raise. -/
def entryFor (today : Date) (r : Record) : Option Entry :=
  match upcomingEntry today r with
  | .ok o => o
  | .error _ => none

/-- Arity message of `AddContactCommand` (line 167). -/
def addArityMsg : String := "Command \x27add\x27 requires 2 arguments: name and phone"

/-- Arity message of `ChangeContactCommand` (line 180). -/
def changeArityMsg : String := "Command \x27change\x27 requires 3 arguments: name, old_phone, new_phone"

/-- Arity message of `ShowPhoneCommand` (line 191). -/
def phoneArityMsg : String := "Command \x27phone\x27 requires 1 argument: name"

/-- Arity message of `AddBirthdayCommand` (line 207). -/
def addBirthdayArityMsg : String := "Command \x27add-birthday\x27 requires 2 arguments: name and birthday"

/-- Arity message of `ShowBirthdayCommand` (line 218). -/
def showBirthdayArityMsg : String := "Command \x27show-birthday\x27 requires 1 argument: name"

/-- Models `PhoneManager.get_phones_str` (line 83-84). -/
def get_phones_str (phones : List String) : String :=
  if phones.isEmpty then "No phones" else String.intercalate ", " phones

/-- Models `BirthdayManager.get_birthday_str` (line 94-95). -/
def get_birthday_str (birthday : Option String) : String :=
  match birthday with
  | some b => ", birthday: " ++ b
  | none => ""

/-- Models `Record.__str__` (line 104-105). -/
def Record.render (r : Record) : String :=
  "Contact name: " ++ r.name ++ ", phones: " ++ get_phones_str r.phones ++
    get_birthday_str r.birthday

/-- An `AddressBook`: the `dict` of the Python `UserDict`, modelled as an
insertion-ordered association list with unique keys. -/
def AddressBook.find (book : List (String × Record)) (name : String) : Option Record :=
  match book with
  | [] => none
  | (k, r) :: rest => if k == name then some r else AddressBook.find rest name

/-- Replace the value stored under an existing key, keeping its position
(the behaviour of `dict` assignment on a present key). -/
def AddressBook.store (book : List (String × Record)) (name : String) (r : Record) :
    List (String × Record) :=
  match book with
  | [] => []
  | (k, v) :: rest =>
    if k == name then (k, r) :: rest else (k, v) :: AddressBook.store rest name r

/-- Models `AddressBook.add_record` (line 145-146): `dict` assignment,
which keeps the position of an existing key and appends a fresh one. -/
def AddressBook.add_record (book : List (String × Record)) (r : Record) :
    List (String × Record) :=
  if (AddressBook.find book r.name).isSome then AddressBook.store book r.name r
  else book ++ [(r.name, r)]

/-- The closed set of commands in `main`'s dispatch table (line 266-274). -/
inductive Cmd
  | add | change | phone | all | addBirthday | showBirthday | birthdays
deriving DecidableEq

/-- Models the `command_map` dictionary of `main` (line 266-274). -/
def command_map (tok : String) : Option Cmd :=
  if tok == "add" then some .add
  else if tok == "change" then some .change
  else if tok == "phone" then some .phone
  else if tok == "all" then some .all
  else if tok == "add-birthday" then some .addBirthday
  else if tok == "show-birthday" then some .showBirthday
  else if tok == "birthdays" then some .birthdays
  else none

/-- Models `Command.execute(args, book)` for each variant (lines 164-233).
The Python commands mutate `book` in place; here the (possibly updated)
book is returned next to the result, also when the command raises, since a
Python exception does not roll mutations back.  `today` threads the
calendar date that `datetime.today()` would give `BirthdaysCommand`. -/
def execute (c : Cmd) (today : Date) (args : List String)
    (book : List (String × Record)) :
    Except String String × List (String × Record) :=
  match c with
  | .add =>
    match args with
    | [name, phone] =>
      let rb : Record × List (String × Record) :=
        match AddressBook.find book name with
        | some r => (r, book)
        | none =>
          let r : Record := ⟨name, [], none⟩
          (r, AddressBook.add_record book r)
      (match add_phone rb.1.phones phone with
       | .error e => (.error e, rb.2)
       | .ok ps =>
         (.ok "Contact added.", AddressBook.store rb.2 name { rb.1 with phones := ps }))
    | _ => (.error addArityMsg, book)
  | .change =>
    match args with
    | [name, old, new] =>
      (match AddressBook.find book name with
       | none => (.ok "Contact not found.", book)
       | some r =>
         match edit_phone r.phones old new with
         | .error e => (.error e, book)
         | .ok ps =>
           (.ok "Phone number updated.", AddressBook.store book name { r with phones := ps }))
    | _ => (.error changeArityMsg, book)
  | .phone =>
    match args with
    | [name] =>
      (match AddressBook.find book name with
       | none => (.ok "Contact not found.", book)
       | some r => (.ok r.render, book))
    | _ => (.error phoneArityMsg, book)
  | .all =>
    if book.isEmpty then (.ok "No contacts found.", book)
    else (.ok (String.intercalate "\n" (book.map (fun p => p.2.render))), book)
  | .addBirthday =>
    match args with
    | [name, bday] =>
      (match AddressBook.find book name with
       | none => (.ok "Contact not found.", book)
       | some r =>
         match makeBirthday bday with
         | .error e => (.error e, book)
         | .ok _ =>
           (.ok "Birthday added.", AddressBook.store book name { r with birthday := some bday }))
    | _ => (.error addBirthdayArityMsg, book)
  | .showBirthday =>
    match args with
    | [name] =>
      (match AddressBook.find book name with
       | none => (.ok "Contact not found.", book)
       | some r =>
         match r.birthday with
         | none => (.ok "Birthday not set.", book)
         | some b => (.ok (r.name ++ "\x27s birthday: " ++ b), book))
    | _ => (.error showBirthdayArityMsg, book)
  | .birthdays =>
    match get_upcoming_birthdays (book.map (fun p => p.2)) today with
    | .error e => (.error e, book)
    | .ok ups =>
      if ups.isEmpty then (.ok "No upcoming birthdays in the next 7 days.", book)
      else
        (.ok (String.intercalate "\n"
                (ups.map (fun en => en.name ++ ": " ++ en.congratulation_date))), book)

/-- Models `input_error(cmd.execute)` as used in `main` (lines 236-242 and
289-292): a raised `ValueError` becomes the string `"Error: {message}"`,
any normal result is passed through unaltered.  The `save_on_change`
persistence wrapper is an external collaborator and out of scope. -/
def dispatch (c : Cmd) (today : Date) (args : List String)
    (book : List (String × Record)) : String × List (String × Record) :=
  match execute c today args book with
  | (.ok s, b) => (s, b)
  | (.error e, b) => ("Error: " ++ e, b)

theorem replaceFirst_of_not_mem (phones : List String) (old new : String)
    (h : old ∉ phones) : replaceFirst phones old new = none := by
  induction phones with
  | nil => rfl
  | cons p ps ih =>
    have hp : ¬ p = old := fun he => h (he ▸ List.mem_cons_self p ps)
    have hps : old ∉ ps := fun hm => h (List.mem_cons_of_mem p hm)
    simp [replaceFirst, hp, ih hps]

theorem replaceFirst_of_mem (phones : List String) (old new : String)
    (h : old ∈ phones) :
    ∃ pre post, phones = pre ++ old :: post ∧ old ∉ pre ∧
      replaceFirst phones old new = some (pre ++ new :: post) := by
  induction phones with
  | nil => cases h
  | cons p ps ih =>
    by_cases hp : p = old
    · subst hp
      exact ⟨[], ps, rfl, by simp, by simp [replaceFirst]⟩
    · have hm : old ∈ ps := by
        rcases List.mem_cons.mp h with h1 | h1
        · exact absurd h1.symm hp
        · exact h1
      obtain ⟨pre, post, he, hnp, hr⟩ := ih hm
      refine ⟨p :: pre, post, by simp [he], ?_, by simp [replaceFirst, hp, hr]⟩
      intro hc
      rcases List.mem_cons.mp hc with h1 | h1
      · exact hp h1.symm
      · exact hnp h1

/-- C3: `PhoneManager.edit_phone` validates the new phone first and fails
with `InvalidPhone` before any mutation; with a valid new phone and no
entry equal to `old` it fails with `PhoneNotFound` (phones untouched, the
error result carries no updated list); with a match it replaces exactly
the first entry equal to `old`, preserving the position and order of all
other entries. -/
theorem edit_phone_spec (phones : List String) (old new : String) :
    (makePhone new = .error invalidPhoneMsg →
      edit_phone phones old new = .error invalidPhoneMsg) ∧
    (makePhone new = .ok new → old ∉ phones →
      edit_phone phones old new = .error ("Phone " ++ old ++ " not found")) ∧
    (makePhone new = .ok new → old ∈ phones →
      ∃ pre post, phones = pre ++ old :: post ∧ old ∉ pre ∧
        edit_phone phones old new = .ok (pre ++ new :: post)) := by
  refine ⟨fun hbad => ?_, fun hok hnm => ?_, fun hok hm => ?_⟩
  · simp [edit_phone, hbad]
  · simp [edit_phone, hok, replaceFirst_of_not_mem phones old new hnm]
  · obtain ⟨pre, post, he, hnp, hr⟩ := replaceFirst_of_mem phones old new hm
    exact ⟨pre, post, he, hnp, by simp [edit_phone, hok, hr]⟩

theorem edit_phone_spec_witness :
    edit_phone ["1111111111", "2222222222", "1111111111"] "1111111111" "12ab" =
      .error invalidPhoneMsg ∧
    edit_phone ["1111111111"] "3333333333" "2222222222" =
      .error ("Phone " ++ "3333333333" ++ " not found") ∧
    ∃ pre post,
      ["1111111111", "2222222222", "1111111111"] = pre ++ "2222222222" :: post ∧
      "2222222222" ∉ pre ∧
      edit_phone ["1111111111", "2222222222", "1111111111"] "2222222222" "3333333333" =
        .ok (pre ++ "3333333333" :: post) :=
  ⟨(edit_phone_spec ["1111111111", "2222222222", "1111111111"] "1111111111" "12ab").1
     (by rfl),
   (edit_phone_spec ["1111111111"] "3333333333" "2222222222").2.1 (by rfl) (by decide),
   (edit_phone_spec ["1111111111", "2222222222", "1111111111"] "2222222222"
      "3333333333").2.2 (by rfl) (by decide)⟩

/-- C5: `Phone` construction succeeds exactly on strings of ten decimal
digit characters, and fails with `InvalidPhone` on every other string. -/
theorem phone_validation_spec (raw : String) :
    (makePhone raw = .ok raw ↔ raw.length = 10 ∧ raw.data.all Char.isDigit = true) ∧
    (¬ (raw.length = 10 ∧ raw.data.all Char.isDigit = true) →
      makePhone raw = .error invalidPhoneMsg) := by
  have hlen : raw.length = raw.data.length := rfl
  constructor
  · constructor
    · intro h
      by_cases hc : (pyIsdigit raw.data && raw.length == 10) = true
      · simp only [pyIsdigit, Bool.and_eq_true, Bool.not_eq_true', beq_iff_eq] at hc
        exact ⟨hc.2, hc.1.2⟩
      · simp [makePhone, hc] at h
    · rintro ⟨h10, hdig⟩
      have hne : raw.data.isEmpty = false := by
        rw [hlen] at h10
        cases hd : raw.data
        · rw [hd] at h10; simp at h10
        · simp [hd]
      simp [makePhone, pyIsdigit, hne, hdig, h10]
  · intro h
    have hc : (pyIsdigit raw.data && raw.length == 10) = false := by
      by_contra hcc
      rw [Bool.not_eq_false] at hcc
      simp only [pyIsdigit, Bool.and_eq_true, Bool.not_eq_true', beq_iff_eq] at hcc
      exact h ⟨hcc.2, hcc.1.2⟩
    simp [makePhone, hc]

theorem phone_validation_spec_witness :
    makePhone "0123456789" = .ok "0123456789" ∧
    makePhone "12a4567890" = .error invalidPhoneMsg ∧
    makePhone "123456789" = .error invalidPhoneMsg :=
  ⟨(phone_validation_spec "0123456789").1.mpr (by decide),
   (phone_validation_spec "12a4567890").2 (by decide),
   (phone_validation_spec "123456789").2 (by decide)⟩

/-- C4 counterexample: `ShowAllCommand.execute` performs no argument-count
check.  The spec gives `ShowAll` arity 0, yet with the one-element argument
list `["junk"]` it returns a normal successful listing instead of failing
with a `WrongArity` error. -/
theorem show_all_no_arity_check_counterexample :
    (["junk"] : List String).length ≠ 0 ∧
    execute Cmd.all ⟨2024, 1, 1⟩ ["junk"] [] = (.ok "No contacts found.", []) ∧
    execute Cmd.birthdays ⟨2024, 1, 1⟩ ["junk"] [] =
      (.ok "No upcoming birthdays in the next 7 days.", []) :=
  ⟨by decide, rfl, rfl⟩

/-- C4 amended: the five argument-taking dispatch-table variants (`Add`,
`Change`, `ShowPhone`, `AddBirthday`, `ShowBirthday`) fail with their
`WrongArity` error on any argument list of the wrong length, before any
read or write of the directory (the result is the same for every book and
the book is returned unchanged); `ShowAll` and `Birthdays` perform no
arity check and ignore their argument list entirely. -/
theorem arity_validation_amended (today : Date) (args : List String)
    (book : List (String × Record)) :
    (args.length ≠ 2 → execute .add today args book = (.error addArityMsg, book)) ∧
    (args.length ≠ 3 → execute .change today args book = (.error changeArityMsg, book)) ∧
    (args.length ≠ 1 → execute .phone today args book = (.error phoneArityMsg, book)) ∧
    (args.length ≠ 2 →
      execute .addBirthday today args book = (.error addBirthdayArityMsg, book)) ∧
    (args.length ≠ 1 →
      execute .showBirthday today args book = (.error showBirthdayArityMsg, book)) ∧
    (∀ args2, execute .all today args book = execute .all today args2 book) ∧
    (∀ args2, execute .birthdays today args book = execute .birthdays today args2 book) := by
  rcases args with _ | ⟨a, _ | ⟨b, _ | ⟨c, _ | ⟨d, t⟩⟩⟩⟩ <;>
    refine ⟨fun h => ?_, fun h => ?_, fun h => ?_, fun h => ?_, fun h => ?_,
      fun args2 => rfl, fun args2 => rfl⟩ <;>
    first
      | rfl
      | (exfalso; exact h (by simp))

theorem arity_validation_amended_witness :
    execute .add ⟨2024, 1, 1⟩ [] [] = (.error addArityMsg, []) ∧
    execute .change ⟨2024, 1, 1⟩ ["a"] [] = (.error changeArityMsg, []) ∧
    execute .phone ⟨2024, 1, 1⟩ [] [] = (.error phoneArityMsg, []) ∧
    execute .addBirthday ⟨2024, 1, 1⟩ ["a", "b", "c"] [] =
      (.error addBirthdayArityMsg, []) ∧
    execute .showBirthday ⟨2024, 1, 1⟩ ["a", "b"] [] =
      (.error showBirthdayArityMsg, []) :=
  ⟨(arity_validation_amended ⟨2024, 1, 1⟩ [] []).1 (by decide),
   (arity_validation_amended ⟨2024, 1, 1⟩ ["a"] []).2.1 (by decide),
   (arity_validation_amended ⟨2024, 1, 1⟩ [] []).2.2.1 (by decide),
   (arity_validation_amended ⟨2024, 1, 1⟩ ["a", "b", "c"] []).2.2.2.1 (by decide),
   (arity_validation_amended ⟨2024, 1, 1⟩ ["a", "b"] []).2.2.2.2.1 (by decide)⟩

/-- C7: for every command token in the dispatch table, the `input_error`
wrapper turns a raised error into `"Error: "` followed by the error's
message, and passes a normal string result through unaltered (in both
cases the book state produced by the command is kept). -/
theorem dispatch_error_wrapping (tok : String) (c : Cmd)
    (_hc : command_map tok = some c) (today : Date) (args : List String)
    (book : List (String × Record)) :
    (∀ e b, execute c today args book = (.error e, b) →
      dispatch c today args book = ("Error: " ++ e, b)) ∧
    (∀ s b, execute c today args book = (.ok s, b) →
      dispatch c today args book = (s, b)) := by
  constructor
  · intro e b h
    unfold dispatch
    rw [h]
  · intro s b h
    unfold dispatch
    rw [h]

theorem dispatch_error_wrapping_witness :
    dispatch .add ⟨2024, 1, 1⟩ ["bob", "12345"] [] =
      ("Error: " ++ invalidPhoneMsg, [("bob", ⟨"bob", [], none⟩)]) ∧
    dispatch .add ⟨2024, 1, 1⟩ ["bob", "0123456789"] [] =
      ("Contact added.", [("bob", ⟨"bob", ["0123456789"], none⟩)]) :=
  ⟨(dispatch_error_wrapping "add" .add rfl ⟨2024, 1, 1⟩ ["bob", "12345"] []).1
     invalidPhoneMsg [("bob", ⟨"bob", [], none⟩)] rfl,
   (dispatch_error_wrapping "add" .add rfl ⟨2024, 1, 1⟩ ["bob", "0123456789"] []).2
     "Contact added." [("bob", ⟨"bob", ["0123456789"], none⟩)] rfl⟩

/-- C8: with well-formed arity and a name that has no record, `Change`,
`ShowPhone` and `ShowBirthday` return the literal string
"Contact not found." as a normal successful result — the dispatcher passes
it through without any `Error:` prefix — and the directory is unchanged. -/
theorem missing_contact_normal_result (today : Date) (book : List (String × Record))
    (name old new : String) (h : AddressBook.find book name = none) :
    execute .change today [name, old, new] book = (.ok "Contact not found.", book) ∧
    execute .phone today [name] book = (.ok "Contact not found.", book) ∧
    execute .showBirthday today [name] book = (.ok "Contact not found.", book) ∧
    dispatch .change today [name, old, new] book = ("Contact not found.", book) ∧
    dispatch .phone today [name] book = ("Contact not found.", book) ∧
    dispatch .showBirthday today [name] book = ("Contact not found.", book) := by
  have h1 : execute .change today [name, old, new] book =
      (.ok "Contact not found.", book) := by
    simp [execute, h]
  have h2 : execute .phone today [name] book = (.ok "Contact not found.", book) := by
    simp [execute, h]
  have h3 : execute .showBirthday today [name] book =
      (.ok "Contact not found.", book) := by
    simp [execute, h]
  refine ⟨h1, h2, h3, ?_, ?_, ?_⟩ <;> (unfold dispatch; first | rw [h1] | rw [h2] | rw [h3])

theorem missing_contact_normal_result_witness :
    execute .change ⟨2024, 1, 1⟩ ["ann", "1111111111", "2222222222"]
        [("bob", ⟨"bob", [], none⟩)] =
      (.ok "Contact not found.", [("bob", ⟨"bob", [], none⟩)]) ∧
    dispatch .showBirthday ⟨2024, 1, 1⟩ ["ann"] [("bob", ⟨"bob", [], none⟩)] =
      ("Contact not found.", [("bob", ⟨"bob", [], none⟩)]) :=
  ⟨(missing_contact_normal_result ⟨2024, 1, 1⟩ [("bob", ⟨"bob", [], none⟩)]
      "ann" "1111111111" "2222222222" (by rfl)).1,
   (missing_contact_normal_result ⟨2024, 1, 1⟩ [("bob", ⟨"bob", [], none⟩)]
      "ann" "1111111111" "2222222222" (by rfl)).2.2.2.2.2⟩

theorem find_append_self (book : List (String × Record)) (name : String) (r : Record)
    (h : AddressBook.find book name = none) :
    AddressBook.find (book ++ [(name, r)]) name = some r := by
  induction book with
  | nil => simp [AddressBook.find]
  | cons p rest ih =>
    obtain ⟨k, v⟩ := p
    by_cases hk : (k == name) = true
    · simp [AddressBook.find, hk] at h
    · simp only [AddressBook.find, hk] at h
      simp only [List.cons_append, AddressBook.find, hk, if_false]
      exact ih h

/-- C9: `Add` on an unknown name with an invalid phone string fails with
`InvalidPhone`, yet the directory is mutated anyway: the record is created
(with an empty phone list and no birthday) before `add_phone` raises, so
after the failure the name maps to a fresh empty record and the book is
not the one the command started from. -/
theorem add_invalid_phone_mutates_book (today : Date) (book : List (String × Record))
    (name p : String) (hfind : AddressBook.find book name = none)
    (hp : makePhone p = .error invalidPhoneMsg) :
    execute .add today [name, p] book =
      (.error invalidPhoneMsg, book ++ [(name, ⟨name, [], none⟩)]) ∧
    AddressBook.find (book ++ [(name, ⟨name, [], none⟩)]) name =
      some ⟨name, [], none⟩ ∧
    book ++ [(name, ⟨name, [], none⟩)] ≠ book := by
  refine ⟨?_, find_append_self book name _ hfind, ?_⟩
  · simp [execute, hfind, AddressBook.add_record, add_phone, hp]
  · intro hcontra
    have hlen := congrArg List.length hcontra
    simp at hlen

theorem add_invalid_phone_mutates_book_witness :
    execute .add ⟨2024, 1, 1⟩ ["bob", "12345"] [] =
      (.error invalidPhoneMsg, [("bob", ⟨"bob", [], none⟩)]) ∧
    AddressBook.find [("bob", ⟨"bob", [], none⟩)] "bob" = some ⟨"bob", [], none⟩ ∧
    ([] : List (String × Record)) ++ [("bob", ⟨"bob", [], none⟩)] ≠ [] := by
  have h := add_invalid_phone_mutates_book ⟨2024, 1, 1⟩ [] "bob" "12345" (by rfl) (by rfl)
  simpa using h

theorem daysInMonth_pos (y m : Nat) (h1 : 1 ≤ m) (h2 : m ≤ 12) :
    1 ≤ daysInMonth y m := by
  interval_cases m <;> simp [daysInMonth] <;> split <;> omega

theorem daysInMonth_le_31 (y m : Nat) : daysInMonth y m ≤ 31 := by
  unfold daysInMonth
  split <;> first | omega | (split <;> omega)

theorem daysBeforeMonth_succ (y m : Nat) (h1 : 1 ≤ m) (h2 : m ≤ 11) :
    daysBeforeMonth y (m + 1) = daysBeforeMonth y m + daysInMonth y m := by
  interval_cases m <;> simp [daysBeforeMonth, daysInMonth] <;>
    cases hl : isLeap y <;> simp [hl]

theorem daysBeforeYear_succ (y : Nat) (hy : 1 ≤ y) :
    daysBeforeYear (y + 1) =
      daysBeforeYear y + 365 + (if isLeap y = true then 1 else 0) := by
  have he : daysBeforeYear (y + 1) = 365 * y + y / 4 - y / 100 + y / 400 := by
    simp [daysBeforeYear]
  rw [he]
  unfold daysBeforeYear
  split
  · rename_i h
    simp only [isLeap, Bool.and_eq_true, beq_iff_eq, Bool.or_eq_true, bne_iff_ne,
      ne_eq] at h
    omega
  · rename_i h
    simp only [isLeap, Bool.and_eq_true, beq_iff_eq, Bool.or_eq_true, bne_iff_ne,
      ne_eq, not_and, not_or, not_not] at h
    omega

theorem daysBeforeMonth_one (y : Nat) : daysBeforeMonth y 1 = 0 := by
  simp [daysBeforeMonth]

theorem daysBeforeMonth_twelve (y : Nat) :
    daysBeforeMonth y 12 = 334 + (if isLeap y = true then 1 else 0) := by
  simp [daysBeforeMonth]

theorem nextDay_spec (d : Date) (h : d.valid) :
    d.nextDay.toOrdinal = d.toOrdinal + 1 ∧ d.nextDay.valid := by
  obtain ⟨hy, hm1, hm2, hd1, hd2⟩ := h
  unfold Date.nextDay
  split
  · rename_i hlt
    constructor
    · simp only [Date.toOrdinal]
      omega
    · simp only [Date.valid]
      exact ⟨hy, hm1, hm2, by omega, by omega⟩
  · split
    · rename_i hnd hm12
      have hde : d.day = daysInMonth d.year d.month := by omega
      constructor
      · simp only [Date.toOrdinal]
        rw [daysBeforeMonth_succ d.year d.month hm1 (by omega)]
        omega
      · simp only [Date.valid]
        exact ⟨hy, by omega, by omega, le_refl 1,
          daysInMonth_pos d.year (d.month + 1) (by omega) (by omega)⟩
    · rename_i hnd hm12
      have hm : d.month = 12 := by omega
      have h31 : daysInMonth d.year d.month = 31 := by rw [hm]; rfl
      have hde : d.day = 31 := by omega
      constructor
      · simp only [Date.toOrdinal, hm, hde, daysBeforeMonth_one, daysBeforeMonth_twelve]
        rw [daysBeforeYear_succ d.year hy]
        split <;> omega
      · simp only [Date.valid]
        refine ⟨by omega, by omega, by omega, by omega, ?_⟩
        rw [show daysInMonth (d.year + 1) 1 = 31 from rfl]
        omega

theorem addDays_spec (d : Date) (h : d.valid) (n : Nat) :
    (d.addDays n).toOrdinal = d.toOrdinal + n ∧ (d.addDays n).valid := by
  induction n with
  | zero => exact ⟨rfl, h⟩
  | succ n ih =>
    obtain ⟨h1, h2⟩ := ih
    obtain ⟨h3, h4⟩ := nextDay_spec _ h2
    exact ⟨by simp only [Date.addDays, h3, h1]; omega, h4⟩

theorem congrDate_spec (d : Date) (h : d.valid) :
    (d.weekday = 5 → congrDate d = d.addDays 2 ∧ (congrDate d).weekday = 0) ∧
    (d.weekday = 6 → congrDate d = d.addDays 1 ∧ (congrDate d).weekday = 0) ∧
    (d.weekday ≠ 5 → d.weekday ≠ 6 → congrDate d = d) := by
  refine ⟨fun h5 => ?_, fun h6 => ?_, fun h5 h6 => by simp [congrDate, h5, h6]⟩
  · have ho := (addDays_spec d h 2).1
    have hc : congrDate d = d.addDays 2 := by simp [congrDate, h5]
    refine ⟨hc, ?_⟩
    rw [hc]
    simp only [Date.weekday] at h5 ⊢
    omega
  · have ho := (addDays_spec d h 1).1
    have hc : congrDate d = d.addDays 1 := by simp [congrDate, h6]
    refine ⟨hc, ?_⟩
    rw [hc]
    simp only [Date.weekday] at h6 ⊢
    omega

theorem replaceYear_ok (d : Date) (y : Nat) (x : Date)
    (h : replaceYear d y = .ok x) :
    x = ⟨y, d.month, d.day⟩ ∧ 1 ≤ y ∧ y ≤ 9999 ∧ d.day ≤ daysInMonth y d.month := by
  unfold replaceYear at h
  split at h
  · rename_i hy
    split at h
    · rename_i hdim
      cases h
      exact ⟨rfl, hy.1, hy.2, hdim⟩
    · cases h
  · cases h

theorem bdayThisYear_ok (b today : Date) (bty : Date)
    (h : bdayThisYear b today = .ok bty) :
    (bty = ⟨today.year, b.month, b.day⟩ ∨ bty = ⟨today.year + 1, b.month, b.day⟩) ∧
    1 ≤ bty.year ∧ bty.year ≤ 9999 ∧ bty.month = b.month ∧ bty.day = b.day ∧
    bty.day ≤ daysInMonth bty.year bty.month := by
  unfold bdayThisYear at h
  cases hr : replaceYear b today.year with
  | error e => rw [hr] at h; cases h
  | ok x =>
    rw [hr] at h
    dsimp only at h
    obtain ⟨hx, hy1, hy2, hdim⟩ := replaceYear_ok b today.year x hr
    split at h
    · obtain ⟨hx2, hy1', hy2', hdim'⟩ := replaceYear_ok x (today.year + 1) bty h
      subst hx
      subst hx2
      exact ⟨Or.inr rfl, hy1', hy2', rfl, rfl, hdim'⟩
    · cases h
      subst hx
      exact ⟨Or.inl rfl, hy1, hy2, rfl, rfl, hdim⟩

theorem digit_toNat_bounds (c : Char) (h : c.isDigit = true) :
    48 ≤ c.toNat ∧ c.toNat ≤ 57 := by
  simp only [Char.isDigit, Bool.and_eq_true, decide_eq_true_eq, ge_iff_le,
    UInt32.le_def, BitVec.le_def] at h
  exact h

theorem spanDigits_spec (cs : List Char) :
    cs = (spanDigits cs).1 ++ (spanDigits cs).2 ∧
    (spanDigits cs).1.all Char.isDigit = true ∧
    (∀ c cs', (spanDigits cs).2 = c :: cs' → c.isDigit = false) := by
  induction cs with
  | nil => exact ⟨rfl, rfl, fun c cs' h => by cases h⟩
  | cons a as ih =>
    by_cases hd : a.isDigit = true
    · obtain ⟨h1, h2, h3⟩ := ih
      simp only [spanDigits, hd, if_true]
      refine ⟨?_, by simp [hd, h2], h3⟩
      rw [List.cons_append, ← h1]
    · simp only [spanDigits, hd, if_false]
      refine ⟨rfl, rfl, fun c cs' h => ?_⟩
      cases h
      exact Bool.not_eq_true a.isDigit ▸ hd

theorem spanDigits_append (ds rest : List Char) (hds : ds.all Char.isDigit = true)
    (hrest : ∀ c cs, rest = c :: cs → c.isDigit = false) :
    spanDigits (ds ++ rest) = (ds, rest) := by
  induction ds with
  | nil =>
    cases rest with
    | nil => rfl
    | cons c cs => simp [spanDigits, hrest c cs rfl]
  | cons a as ih =>
    simp only [List.all_cons, Bool.and_eq_true] at hds
    simp [spanDigits, hds.1, ih hds.2]

theorem digitsVal_foldl_lt (cs : List Char) (h : cs.all Char.isDigit = true) :
    ∀ a, List.foldl (fun a c => 10 * a + (c.toNat - 48)) a cs < (a + 1) * 10 ^ cs.length := by
  induction cs with
  | nil => intro a; simp
  | cons c cs ih =>
    intro a
    simp only [List.all_cons, Bool.and_eq_true] at h
    obtain ⟨hc, hcs⟩ := h
    have hd := digit_toNat_bounds c hc
    simp only [List.foldl_cons, List.length_cons]
    calc List.foldl (fun a c => 10 * a + (c.toNat - 48)) (10 * a + (c.toNat - 48)) cs
        < (10 * a + (c.toNat - 48) + 1) * 10 ^ cs.length := ih hcs _
      _ ≤ ((a + 1) * 10) * 10 ^ cs.length :=
          Nat.mul_le_mul_right (10 ^ cs.length) (by omega)
      _ = (a + 1) * 10 ^ (cs.length + 1) := by ring

theorem digitsVal_lt (cs : List Char) (h : cs.all Char.isDigit = true) :
    digitsVal cs < 10 ^ cs.length := by
  have := digitsVal_foldl_lt cs h 0
  simpa [digitsVal] using this

theorem nonzero_digit_toNat (c : Char) (h : c.isDigit = true) (h0 : c ≠ '0') :
    49 ≤ c.toNat ∧ c.toNat ≤ 57 := by
  have hb := digit_toNat_bounds c h
  rcases Nat.lt_or_ge 48 c.toNat with hlt | hge
  · exact ⟨hlt, hb.2⟩
  · exfalso
    apply h0
    have he : c.toNat = 48 := by omega
    have hr := Char.ofNat_toNat c
    rw [he] at hr
    exact hr.symm

theorem digitsVal_singleton (c : Char) : digitsVal [c] = c.toNat - 48 := by
  simp [digitsVal]

/-- Stated from the amended claim: the day field is written either with
one or two digits, or as a space followed by a single nonzero digit;
`val` is its numeric value. -/
def dayField (ds : List Char) (val : Nat) : Prop :=
  (ds.all Char.isDigit = true ∧ 1 ≤ ds.length ∧ ds.length ≤ 2 ∧ val = digitsVal ds) ∨
  (∃ c : Char, ds = [' ', c] ∧ c.isDigit = true ∧ c ≠ '0' ∧ val = digitsVal [c])

theorem matchDay_spec (cs : List Char) (d : Nat) (rest : List Char)
    (h : matchDay cs = some (d, rest)) :
    ∃ ds, cs = ds ++ rest ∧ dayField ds d ∧ 1 ≤ d ∧ d ≤ 31 := by
  unfold matchDay at h
  split at h
  · rename_i c r
    split at h
    · rename_i hc
      cases h
      have hn := nonzero_digit_toNat c hc.1 hc.2
      refine ⟨[' ', c], rfl, Or.inr ⟨c, rfl, hc.1, hc.2, ?_⟩, by omega, by omega⟩
      rw [digitsVal_singleton]
    · cases h
  · dsimp only at h
    split at h
    · rename_i hcond
      cases h
      obtain ⟨e1, e2, _⟩ := spanDigits_spec cs
      exact ⟨(spanDigits cs).1, e1, Or.inl ⟨e2, hcond.1, hcond.2.1, rfl⟩,
        hcond.2.2.1, hcond.2.2.2⟩
    · cases h

theorem matchDay_append_digits (ds rest : List Char)
    (h : ds.all Char.isDigit = true) (h1 : 1 ≤ ds.length) (h2 : ds.length ≤ 2)
    (h3 : 1 ≤ digitsVal ds) (h4 : digitsVal ds ≤ 31)
    (hrest : ∀ c cs, rest = c :: cs → c.isDigit = false) :
    matchDay (ds ++ rest) = some (digitsVal ds, rest) := by
  cases ds with
  | nil => simp at h1
  | cons a t =>
    simp only [List.all_cons, Bool.and_eq_true] at h
    have ha : a ≠ ' ' := fun he => absurd (he ▸ h.1) (by decide)
    have hsp : spanDigits (a :: t ++ rest) = (a :: t, rest) :=
      spanDigits_append (a :: t) rest (by simp [h.1, h.2]) hrest
    unfold matchDay
    split
    · rename_i c r heq
      rw [List.cons_append] at heq
      exact absurd (List.cons.inj heq).1 ha
    · dsimp only
      rw [hsp]
      rw [if_pos ⟨h1, h2, h3, h4⟩]

theorem matchDay_space (c : Char) (rest : List Char)
    (hc : c.isDigit = true) (hc0 : c ≠ '0') :
    matchDay (' ' :: c :: rest) = some (c.toNat - 48, rest) := by
  show (if c.isDigit = true ∧ c ≠ '0' then some (c.toNat - 48, rest) else none) =
    some (c.toNat - 48, rest)
  rw [if_pos ⟨hc, hc0⟩]

theorem matchMonthYear_spec (cs : List Char) (m y : Nat)
    (h : matchMonthYear cs = some (m, y)) :
    ∃ ms ys : List Char, cs = ms ++ '.' :: ys ∧
      ms.all Char.isDigit = true ∧ ys.all Char.isDigit = true ∧
      1 ≤ ms.length ∧ ms.length ≤ 2 ∧ ys.length = 4 ∧
      digitsVal ms = m ∧ digitsVal ys = y ∧ 1 ≤ m ∧ m ≤ 12 := by
  unfold matchMonthYear at h
  split at h <;> try cases h
  rename_i _p1 ms r2 heq1
  split at h <;> try cases h
  rename_i _p2 ys heq2
  split at h
  · rename_i hcond
    cases h
    obtain ⟨e1a, e1b, _⟩ := spanDigits_spec cs
    obtain ⟨e2a, e2b, _⟩ := spanDigits_spec r2
    rw [heq1] at e1a e1b
    rw [heq2] at e2a e2b
    dsimp only at e1a e1b e2a e2b
    refine ⟨ms, ys, ?_, e1b, e2b, hcond.1, hcond.2.1, hcond.2.2.2.2, rfl, rfl,
      hcond.2.2.1, hcond.2.2.2.1⟩
    rw [e1a]
    simp only [List.append_nil] at e2a
    rw [e2a]
  · cases h

theorem matchMonthYear_append (ms ys : List Char)
    (hms : ms.all Char.isDigit = true) (hys : ys.all Char.isDigit = true)
    (h1 : 1 ≤ ms.length) (h2 : ms.length ≤ 2) (h3 : 1 ≤ digitsVal ms)
    (h4 : digitsVal ms ≤ 12) (h5 : ys.length = 4) :
    matchMonthYear (ms ++ '.' :: ys) = some (digitsVal ms, digitsVal ys) := by
  have hdot : ('.' : Char).isDigit = false := rfl
  have hs2 : spanDigits (ms ++ '.' :: ys) = (ms, '.' :: ys) :=
    spanDigits_append ms ('.' :: ys) hms (fun c cs h => by cases h; exact hdot)
  have hs3 : spanDigits ys = (ys, []) := by
    have := spanDigits_append ys [] hys (fun c cs h => by cases h)
    simpa using this
  simp only [matchMonthYear, hs2, hs3]
  rw [if_pos ⟨h1, h2, h3, h4, h5⟩]

theorem strptimeDMY_bounds (raw : String) (d m y : Nat)
    (h : strptimeDMY raw = some (d, m, y)) :
    1 ≤ d ∧ d ≤ 31 ∧ 1 ≤ m ∧ m ≤ 12 := by
  unfold strptimeDMY at h
  cases hmd : matchDay raw.data with
  | none => rw [hmd] at h; cases h
  | some t =>
    obtain ⟨d0, r0⟩ := t
    rw [hmd] at h
    dsimp only at h
    split at h <;> try cases h
    rename_i r0x r1
    cases hmy : matchMonthYear r1 with
    | none => rw [hmy] at h; cases h
    | some t2 =>
      obtain ⟨m2, y2⟩ := t2
      rw [hmy] at h
      dsimp only at h
      obtain ⟨ds, _, _, hd1, hd31⟩ := matchDay_spec raw.data d0 ('.' :: r1) hmd
      obtain ⟨ms, ys, _, _, _, _, _, _, _, _, hm1, hm2⟩ :=
        matchMonthYear_spec r1 m2 y2 hmy
      cases h
      exact ⟨hd1, hd31, hm1, hm2⟩

theorem parseBirthday_bounds (raw : String) (d m y : Nat)
    (h : parseBirthday raw = some (d, m, y)) :
    1 ≤ d ∧ d ≤ daysInMonth y m ∧ 1 ≤ m ∧ m ≤ 12 ∧ 1 ≤ y ∧ y ≤ 9999 := by
  unfold parseBirthday at h
  cases hs : strptimeDMY raw with
  | none => rw [hs] at h; cases h
  | some t =>
    obtain ⟨d', m', y'⟩ := t
    rw [hs] at h
    dsimp only at h
    split at h
    · rename_i hcond
      cases h
      obtain ⟨hb1, hb2, hb3, hb4⟩ := strptimeDMY_bounds raw d m y hs
      exact ⟨hb1, hcond.2.2, hb3, hb4, hcond.1, hcond.2.1⟩
    · cases h

theorem bty_valid (bs : String) (d m y : Nat) (today : Date) (bty : Date)
    (hp : parseBirthday bs = some (d, m, y))
    (h : bdayThisYear ⟨y, m, d⟩ today = .ok bty) : bty.valid := by
  obtain ⟨hd1, _hd2, hm1, hm2, _hy1, _hy2⟩ := parseBirthday_bounds bs d m y hp
  obtain ⟨_hor, hy1, _hy2b, hbm, hbd, hdim⟩ := bdayThisYear_ok ⟨y, m, d⟩ today bty h
  refine ⟨hy1, ?_, ?_, ?_, hdim⟩
  · rw [hbm]; exact hm1
  · rw [hbm]; exact hm2
  · rw [hbd]; exact hd1

theorem upcomingEntry_ok_some (today : Date) (r : Record) (e : Entry)
    (h : upcomingEntry today r = .ok (some e)) :
    ∃ bs d m y bty,
      r.birthday = some bs ∧ parseBirthday bs = some (d, m, y) ∧
      bdayThisYear ⟨y, m, d⟩ today = .ok bty ∧
      0 ≤ (bty.toOrdinal : Int) - (today.toOrdinal : Int) ∧
      (bty.toOrdinal : Int) - (today.toOrdinal : Int) ≤ 7 ∧
      e = ⟨r.name, fmtDate (congrDate bty)⟩ := by
  unfold upcomingEntry at h
  cases hb : r.birthday with
  | none => rw [hb] at h; cases h
  | some bs =>
    rw [hb] at h
    dsimp only at h
    cases hp : parseBirthday bs with
    | none => rw [hp] at h; cases h
    | some t =>
      obtain ⟨d, m, y⟩ := t
      rw [hp] at h
      dsimp only at h
      cases hbty : bdayThisYear ⟨y, m, d⟩ today with
      | error e2 => rw [hbty] at h; cases h
      | ok bty =>
        rw [hbty] at h
        dsimp only at h
        split at h
        · rename_i hcond
          cases h
          exact ⟨bs, d, m, y, bty, rfl, hp, hbty, hcond.1, hcond.2, rfl⟩
        · cases h

theorem upcomingEntry_of_window (today : Date) (r : Record) (bs : String)
    (d m y : Nat) (bty : Date) (hb : r.birthday = some bs)
    (hp : parseBirthday bs = some (d, m, y))
    (hbty : bdayThisYear ⟨y, m, d⟩ today = .ok bty)
    (h0 : 0 ≤ (bty.toOrdinal : Int) - (today.toOrdinal : Int))
    (h7 : (bty.toOrdinal : Int) - (today.toOrdinal : Int) ≤ 7) :
    upcomingEntry today r = .ok (some ⟨r.name, fmtDate (congrDate bty)⟩) := by
  unfold upcomingEntry
  rw [hb]
  dsimp only
  rw [hp]
  dsimp only
  rw [hbty]
  dsimp only
  rw [if_pos ⟨h0, h7⟩]

theorem entryFor_isSome_iff (today : Date) (r : Record) :
    (entryFor today r).isSome = true ↔
      ∃ bs d m y bty, r.birthday = some bs ∧ parseBirthday bs = some (d, m, y) ∧
        bdayThisYear ⟨y, m, d⟩ today = .ok bty ∧
        0 ≤ (bty.toOrdinal : Int) - (today.toOrdinal : Int) ∧
        (bty.toOrdinal : Int) - (today.toOrdinal : Int) ≤ 7 := by
  constructor
  · intro h
    unfold entryFor at h
    cases hu : upcomingEntry today r with
    | error e => rw [hu] at h; simp at h
    | ok o =>
      rw [hu] at h
      cases o with
      | none => simp at h
      | some e =>
        obtain ⟨bs, d, m, y, bty, h1, h2, h3, h4, h5, _⟩ :=
          upcomingEntry_ok_some today r e hu
        exact ⟨bs, d, m, y, bty, h1, h2, h3, h4, h5⟩
  · rintro ⟨bs, d, m, y, bty, h1, h2, h3, h4, h5⟩
    have hw := upcomingEntry_of_window today r bs d m y bty h1 h2 h3 h4 h5
    simp [entryFor, hw]

theorem get_upcoming_eq_filterMap (records : List Record) (today : Date)
    (out : List Entry) (h : get_upcoming_birthdays records today = .ok out) :
    out = records.filterMap (entryFor today) := by
  induction records generalizing out with
  | nil => cases h; rfl
  | cons r rs ih =>
    unfold get_upcoming_birthdays at h
    cases hu : upcomingEntry today r with
    | error e => rw [hu] at h; cases h
    | ok o =>
      rw [hu] at h
      dsimp only at h
      cases hrest : get_upcoming_birthdays rs today with
      | error e => rw [hrest] at h; cases h
      | ok rest =>
        rw [hrest] at h
        dsimp only at h
        cases h
        have hef : entryFor today r = o := by simp [entryFor, hu]
        rw [List.filterMap_cons, hef, ← ih rest hrest]
        cases o <;> rfl

/-- C1: when `get_upcoming_birthdays` returns a list, that list is exactly
the input records filtered in input order (`filterMap`), and a record
contributes an entry precisely when it has a set birthday whose year,
replaced by `today.year` and rolled to `today.year + 1` if strictly before
`today`, lies at a day distance `delta` from `today` with
`0 ≤ delta ≤ 7`; a birthday falling exactly on `today` (`delta = 0`) is
included. -/
theorem upcoming_inclusion_and_order (records : List Record) (today : Date)
    (out : List Entry) (h : get_upcoming_birthdays records today = .ok out) :
    out = records.filterMap (entryFor today) ∧
    (∀ r : Record, (entryFor today r).isSome = true ↔
      ∃ bs d m y bty, r.birthday = some bs ∧ parseBirthday bs = some (d, m, y) ∧
        bdayThisYear ⟨y, m, d⟩ today = .ok bty ∧
        0 ≤ (bty.toOrdinal : Int) - (today.toOrdinal : Int) ∧
        (bty.toOrdinal : Int) - (today.toOrdinal : Int) ≤ 7) ∧
    (∀ (r : Record) (bs : String) (d m y : Nat) (bty : Date),
      r.birthday = some bs → parseBirthday bs = some (d, m, y) →
      bdayThisYear ⟨y, m, d⟩ today = .ok bty →
      (bty.toOrdinal : Int) - (today.toOrdinal : Int) = 0 →
      (entryFor today r).isSome = true) :=
  ⟨get_upcoming_eq_filterMap records today out h,
   fun r => entryFor_isSome_iff today r,
   fun r bs d m y bty hb hp hbty hz =>
     (entryFor_isSome_iff today r).mpr
       ⟨bs, d, m, y, bty, hb, hp, hbty, by omega, by omega⟩⟩

theorem upcoming_inclusion_and_order_witness :
    get_upcoming_birthdays
        [⟨"john", [], some "15.06.1990"⟩, ⟨"amy", [], some "20.06.1990"⟩,
         ⟨"eve", ["0123456789"], none⟩] ⟨2024, 6, 10⟩ =
      .ok [⟨"john", "17.06.2024"⟩] ∧
    ([⟨"john", "17.06.2024"⟩] : List Entry) =
      ([⟨"john", [], some "15.06.1990"⟩, ⟨"amy", [], some "20.06.1990"⟩,
        ⟨"eve", ["0123456789"], none⟩] : List Record).filterMap
        (entryFor ⟨2024, 6, 10⟩) :=
  ⟨rfl,
   (upcoming_inclusion_and_order
      [⟨"john", [], some "15.06.1990"⟩, ⟨"amy", [], some "20.06.1990"⟩,
       ⟨"eve", ["0123456789"], none⟩] ⟨2024, 6, 10⟩
      [⟨"john", "17.06.2024"⟩] rfl).1⟩

/-- C2: every entry produced by the calculator carries the in-window
birthday date shifted by two days when that date is a Saturday and by one
day when it is a Sunday — landing on a Monday in both cases — and
unshifted on weekdays; concretely, with today = 10.06.2024, birthday
15.06.1990 (a Saturday this year) yields "17.06.2024" and birthday
12.06.1990 (a Wednesday) yields "12.06.2024". -/
theorem congratulation_weekend_shift :
    (∀ (today : Date) (r : Record) (e : Entry),
      upcomingEntry today r = .ok (some e) →
      ∃ bs d m y bty,
        r.birthday = some bs ∧ parseBirthday bs = some (d, m, y) ∧
        bdayThisYear ⟨y, m, d⟩ today = .ok bty ∧
        e.congratulation_date = fmtDate (congrDate bty) ∧
        (bty.weekday = 5 → congrDate bty = bty.addDays 2 ∧ (congrDate bty).weekday = 0) ∧
        (bty.weekday = 6 → congrDate bty = bty.addDays 1 ∧ (congrDate bty).weekday = 0) ∧
        (bty.weekday ≠ 5 → bty.weekday ≠ 6 → congrDate bty = bty)) ∧
    get_upcoming_birthdays [⟨"john", [], some "15.06.1990"⟩] ⟨2024, 6, 10⟩ =
      .ok [⟨"john", "17.06.2024"⟩] ∧
    (⟨2024, 6, 15⟩ : Date).weekday = 5 ∧
    get_upcoming_birthdays [⟨"mary", [], some "12.06.1990"⟩] ⟨2024, 6, 10⟩ =
      .ok [⟨"mary", "12.06.2024"⟩] := by
  refine ⟨?_, rfl, rfl, rfl⟩
  intro today r e h
  obtain ⟨bs, d, m, y, bty, h1, h2, h3, _h4, _h5, he⟩ := upcomingEntry_ok_some today r e h
  have hv := bty_valid bs d m y today bty h2 h3
  obtain ⟨c1, c2, c3⟩ := congrDate_spec bty hv
  exact ⟨bs, d, m, y, bty, h1, h2, h3, by rw [he], c1, c2, c3⟩

theorem congratulation_weekend_shift_witness :
    ∃ bs d m y bty,
      (⟨"john", [], some "15.06.1990"⟩ : Record).birthday = some bs ∧
      parseBirthday bs = some (d, m, y) ∧
      bdayThisYear ⟨y, m, d⟩ ⟨2024, 6, 10⟩ = .ok bty ∧
      (⟨"john", "17.06.2024"⟩ : Entry).congratulation_date = fmtDate (congrDate bty) ∧
      (bty.weekday = 5 → congrDate bty = bty.addDays 2 ∧ (congrDate bty).weekday = 0) ∧
      (bty.weekday = 6 → congrDate bty = bty.addDays 1 ∧ (congrDate bty).weekday = 0) ∧
      (bty.weekday ≠ 5 → bty.weekday ≠ 6 → congrDate bty = bty) :=
  congratulation_weekend_shift.1 ⟨2024, 6, 10⟩ ⟨"john", [], some "15.06.1990"⟩
    ⟨"john", "17.06.2024"⟩ rfl

theorem get_upcoming_error_of_mem (records : List Record) (today : Date)
    (r : Record) (hmem : r ∈ records) (e : String)
    (he : upcomingEntry today r = .error e) :
    ∃ msg, get_upcoming_birthdays records today = .error msg := by
  induction records with
  | nil => cases hmem
  | cons a as ih =>
    unfold get_upcoming_birthdays
    cases ha : upcomingEntry today a with
    | error e2 => exact ⟨e2, rfl⟩
    | ok o =>
      rcases List.mem_cons.mp hmem with rfl | hmem2
      · rw [ha] at he; cases he
      · obtain ⟨msg, hmsg⟩ := ih hmem2
        rw [hmsg]
        exact ⟨msg, rfl⟩

/-- C10: a validated birthday on 29 February (necessarily of a leap year)
makes `get_upcoming_birthdays` raise for any real reference date in a
non-leap year: `bday.replace(year=today.year)` fails with "day is out of
range for month", and the whole calculator call aborts with an error
instead of a result. -/
theorem feb29_nonleap_raises (records : List Record) (today : Date)
    (r : Record) (bs : String) (y : Nat)
    (hmem : r ∈ records) (hb : r.birthday = some bs)
    (hp : parseBirthday bs = some (29, 2, y))
    (hty1 : 1 ≤ today.year) (hty2 : today.year ≤ 9999)
    (hleap : isLeap today.year = false) :
    upcomingEntry today r = .error "day is out of range for month" ∧
    ∃ msg, get_upcoming_birthdays records today = .error msg := by
  have hdim : daysInMonth today.year 2 = 28 := by
    simp [daysInMonth, hleap]
  have hry : replaceYear ⟨y, 2, 29⟩ today.year = .error "day is out of range for month" := by
    unfold replaceYear
    rw [if_pos ⟨hty1, hty2⟩]
    rw [if_neg]
    simp only [hdim]
    omega
  have h1 : upcomingEntry today r = .error "day is out of range for month" := by
    unfold upcomingEntry
    rw [hb]
    dsimp only
    rw [hp]
    dsimp only
    unfold bdayThisYear
    rw [hry]
  exact ⟨h1, get_upcoming_error_of_mem records today r hmem _ h1⟩

theorem feb29_nonleap_raises_witness :
    upcomingEntry ⟨2025, 1, 1⟩ ⟨"bob", [], some "29.02.2000"⟩ =
      .error "day is out of range for month" ∧
    ∃ msg,
      get_upcoming_birthdays
        [⟨"ann", [], some "12.06.1990"⟩, ⟨"bob", [], some "29.02.2000"⟩] ⟨2025, 1, 1⟩ =
        .error msg :=
  feb29_nonleap_raises
    [⟨"ann", [], some "12.06.1990"⟩, ⟨"bob", [], some "29.02.2000"⟩] ⟨2025, 1, 1⟩
    ⟨"bob", [], some "29.02.2000"⟩ "29.02.2000" 2000
    (by simp) rfl rfl (by decide) (by decide) (by decide)

/-- Stated from the amended claim: the raw string is a dot-separated
day.month.year in which the day is written with one or two digits or as a
space followed by a single nonzero digit, the month with one or two
digits, the year with exactly four digits, and the values form a real
calendar date. -/
def lenientRealDMY (raw : String) : Prop :=
  ∃ (ds ms ys : List Char) (dval : Nat),
    raw.data = ds ++ '.' :: (ms ++ '.' :: ys) ∧
    dayField ds dval ∧
    ms.all Char.isDigit = true ∧ ys.all Char.isDigit = true ∧
    1 ≤ ms.length ∧ ms.length ≤ 2 ∧ ys.length = 4 ∧
    1 ≤ digitsVal ys ∧ 1 ≤ digitsVal ms ∧ digitsVal ms ≤ 12 ∧
    1 ≤ dval ∧ dval ≤ daysInMonth (digitsVal ys) (digitsVal ms)

/-- Stated from C6's words: the raw string is a real calendar date written
as `DD.MM.YYYY` with '.' separators and exactly a two-digit day, two-digit
month and four-digit year. -/
def strictDDMMYYYY (raw : String) : Prop :=
  ∃ ds ms ys : List Char,
    raw.data = ds ++ '.' :: (ms ++ '.' :: ys) ∧
    ds.all Char.isDigit = true ∧ ms.all Char.isDigit = true ∧
    ys.all Char.isDigit = true ∧
    ds.length = 2 ∧ ms.length = 2 ∧ ys.length = 4 ∧
    1 ≤ digitsVal ys ∧ 1 ≤ digitsVal ms ∧ digitsVal ms ≤ 12 ∧
    1 ≤ digitsVal ds ∧ digitsVal ds ≤ daysInMonth (digitsVal ys) (digitsVal ms)

theorem parseBirthday_isSome_iff (raw : String) :
    (parseBirthday raw).isSome = true ↔ lenientRealDMY raw := by
  constructor
  · intro h
    rw [Option.isSome_iff_exists] at h
    obtain ⟨⟨d, m, y⟩, ht⟩ := h
    have hctor : 1 ≤ y ∧ y ≤ 9999 ∧ d ≤ daysInMonth y m := by
      unfold parseBirthday at ht
      cases hs : strptimeDMY raw with
      | none => rw [hs] at ht; cases ht
      | some t =>
        obtain ⟨d2, m2, y2⟩ := t
        rw [hs] at ht
        dsimp only at ht
        split at ht
        · rename_i hcond
          cases ht
          exact hcond
        · cases ht
    have hs : strptimeDMY raw = some (d, m, y) := by
      unfold parseBirthday at ht
      cases hs : strptimeDMY raw with
      | none => rw [hs] at ht; cases ht
      | some t =>
        obtain ⟨d2, m2, y2⟩ := t
        rw [hs] at ht
        dsimp only at ht
        split at ht
        · cases ht; rfl
        · cases ht
    unfold strptimeDMY at hs
    cases hmd : matchDay raw.data with
    | none => rw [hmd] at hs; cases hs
    | some t =>
      obtain ⟨d0, r0⟩ := t
      rw [hmd] at hs
      dsimp only at hs
      split at hs <;> try cases hs
      rename_i r0x r1
      cases hmy : matchMonthYear r1 with
      | none => rw [hmy] at hs; cases hs
      | some t2 =>
        obtain ⟨m2, y2⟩ := t2
        rw [hmy] at hs
        dsimp only at hs
        obtain ⟨ds, hcs, hdf, hd1, _⟩ := matchDay_spec raw.data d0 ('.' :: r1) hmd
        obtain ⟨ms, ys, hr1, hmsd, hysd, hl3, hl4, hl5, hdm, hdy, hmb1, hmb2⟩ :=
          matchMonthYear_spec r1 m2 y2 hmy
        cases hs
        refine ⟨ds, ms, ys, _, ?_, hdf, hmsd, hysd, hl3, hl4, hl5, ?_, ?_, ?_,
          hd1, ?_⟩
        · rw [hcs, hr1]
        · rw [hdy]
          exact hctor.1
        · rw [hdm]
          exact hmb1
        · rw [hdm]
          exact hmb2
        · rw [hdy, hdm]
          exact hctor.2.2
  · rintro ⟨ds, ms, ys, dval, hdata, hdf, hms, hys, hl3, hl4, hl5, hy1, hm1,
      hm2, hd1, hd2⟩
    have hdot : ('.' : Char).isDigit = false := rfl
    have hmy : matchMonthYear (ms ++ '.' :: ys) = some (digitsVal ms, digitsVal ys) :=
      matchMonthYear_append ms ys hms hys hl3 hl4 hm1 hm2 hl5
    have hd31 : dval ≤ 31 :=
      le_trans hd2 (daysInMonth_le_31 (digitsVal ys) (digitsVal ms))
    have hmd : matchDay raw.data = some (dval, '.' :: (ms ++ '.' :: ys)) := by
      rw [hdata]
      rcases hdf with ⟨hall, hlen1, hlen2, hveq⟩ | ⟨c, hdsc, hcdig, hc0, hveq⟩
      · rw [hveq]
        exact matchDay_append_digits ds ('.' :: (ms ++ '.' :: ys)) hall hlen1 hlen2
          (hveq ▸ hd1) (hveq ▸ hd31) (fun c cs h => by cases h; exact hdot)
      · rw [hdsc]
        rw [show ([' ', c] ++ ('.' :: (ms ++ '.' :: ys))) =
          ' ' :: c :: ('.' :: (ms ++ '.' :: ys)) from rfl]
        rw [matchDay_space c ('.' :: (ms ++ '.' :: ys)) hcdig hc0]
        rw [hveq, digitsVal_singleton]
    have hst : strptimeDMY raw = some (dval, digitsVal ms, digitsVal ys) := by
      simp only [strptimeDMY, hmd, hmy]
    have hy9999 : digitsVal ys ≤ 9999 := by
      have := digitsVal_lt ys hys
      rw [hl5] at this
      omega
    simp only [parseBirthday, hst]
    rw [if_pos ⟨hy1, hy9999, hd2⟩]
    rfl

/-- C6 counterexample: `Birthday` construction accepts "5.6.1990", whose
day is written with a single digit, although the claim requires failure on
every string that is not in strict two-digit-day two-digit-month
`DD.MM.YYYY` grouping. -/
theorem birthday_strict_format_counterexample :
    makeBirthday "5.6.1990" = .ok "5.6.1990" ∧ ¬ strictDDMMYYYY "5.6.1990" := by
  constructor
  · rfl
  · rintro ⟨ds, ms, ys, hdata, hds, _hms, _hys, hlds, _⟩
    have hd : ("5.6.1990" : String).data = ['5', '.', '6', '.', '1', '9', '9', '0'] := rfl
    rw [hd] at hdata
    rcases ds with _ | ⟨a, _ | ⟨b, _ | ⟨c, t⟩⟩⟩ <;> simp at hlds
    simp only [List.cons_append, List.nil_append, List.cons.injEq] at hdata
    obtain ⟨ha, hb, _⟩ := hdata
    subst ha
    subst hb
    simp [List.all_cons] at hds

/-- C6 amended: `Birthday` construction succeeds exactly on dot-separated
day.month.year strings whose day is written with one or two digits or as
a space followed by a single nonzero digit (CPython `%d` accepts a
space-padded day), whose month has one or two digits and whose year has
exactly four digits, denoting a real calendar date (so month 13,
30 February and wrong separators still fail), and fails with
`InvalidDate` on every other string. -/
theorem birthday_validation_amended (raw : String) :
    (makeBirthday raw = .ok raw ↔ lenientRealDMY raw) ∧
    (makeBirthday raw ≠ .ok raw → makeBirthday raw = .error invalidDateMsg) := by
  constructor
  · rw [← parseBirthday_isSome_iff raw]
    unfold makeBirthday
    constructor
    · intro h
      by_cases hs : (parseBirthday raw).isSome = true
      · exact hs
      · rw [if_neg (by simpa using hs)] at h
        cases h
    · intro h
      rw [if_pos h]
  · intro h
    unfold makeBirthday at h ⊢
    by_cases hs : (parseBirthday raw).isSome = true
    · rw [if_pos hs] at h
      exact absurd rfl h
    · rw [if_neg (by simpa using hs)]

theorem birthday_validation_amended_witness :
    lenientRealDMY "29.02.2024" ∧
    lenientRealDMY " 5.6.1990" ∧
    makeBirthday "30.02.2024" = .error invalidDateMsg ∧
    makeBirthday "13.13.2024" = .error invalidDateMsg ∧
    makeBirthday "13-06-2024" = .error invalidDateMsg :=
  ⟨(birthday_validation_amended "29.02.2024").1.mp rfl,
   (birthday_validation_amended " 5.6.1990").1.mp rfl,
   (birthday_validation_amended "30.02.2024").2 (fun h => Except.noConfusion h),
   (birthday_validation_amended "13.13.2024").2 (fun h => Except.noConfusion h),
   (birthday_validation_amended "13-06-2024").2 (fun h => Except.noConfusion h)⟩
